import Mathlib

/-!
Verification of the Browsearcher agent core: workspace-sandboxed path
resolution, the sandboxed command executor, the bounded agent loop with its
DONE-marker stop condition, the reflection pass, usage aggregation, browser
capability cleanup, session status transitions, and text extraction
normalisation.  Each definition is a shallow embedding of the corresponding
TypeScript function; file and line references point into the repository
sources.
-/

namespace Browsearcher

/-! ## POSIX path model

Absolute paths are modelled as their list of components after the leading
slash.  A raw (user-supplied) path is an `abs` flag (leading slash) plus raw
components, which may still contain `"."`, `".."` or `""` (from doubled
slashes).  `normComps` mirrors the normalisation performed by Node's
`path.resolve`/`path.normalize` on an absolute path: `"."` and empty
components vanish, `".."` pops one component and is dropped at the root. -/

structure RawPath where
  abs : Bool
  comps : List String
deriving DecidableEq

def normComps : List String → List String → List String
  | [], stack => stack.reverse
  | c :: rest, stack =>
    if c = "." ∨ c = "" then normComps rest stack
    else if c = ".." then normComps rest stack.tail
    else normComps rest (c :: stack)

/-- Node `path.resolve(base)` for an absolute `base`. -/
def resolveBase (base : List String) : List String := normComps base []

/-- Node `path.resolve(base, p)` for an absolute `base`: an absolute `p` is
normalised on its own, a relative `p` is appended to `base` first. -/
def resolvePath (base : List String) (p : RawPath) : List String :=
  if p.abs then normComps p.comps [] else normComps (base ++ p.comps) []

/-- Node `path.relative(from, to)` on two absolute, normalised component lists:
strip the common prefix, then one `".."` per remaining `from` component
followed by the remaining `to` components. -/
def pathRelative : List String → List String → List String
  | [], ts => ts
  | fs, [] => List.replicate fs.length ".."
  | f :: fs, t :: ts =>
    if f = t then pathRelative fs ts
    else List.replicate (fs.length + 1) ".." ++ (t :: ts)

/-- JavaScript `s.startsWith(pre)`. -/
def startsWithStr (s pre : String) : Bool := pre.data.isPrefixOf s.data

/-- The check `relative.startsWith('..')` on the joined (`'/'`-separated) string: the
join starts with `".."` exactly when the first component does. -/
def relStartsWithDotDot : List String → Bool
  | [] => false
  | c :: _ => startsWithStr c ".."

/-- The check `path.isAbsolute(relative)` on the joined string: it would start with a
slash only if the first component did (components never contain `'/'`). -/
def relIsAbsolute : List String → Bool
  | [] => false
  | c :: _ => startsWithStr c "/"

/-! ## `ensureWorkspacePath` (src/unnamed/part_003, lines 121-131)

```ts
const ensureWorkspacePath = (workspaceRoot: string, target: string): string => {
  const resolvedRoot = path.resolve(workspaceRoot);
  const resolvedTarget = path.resolve(workspaceRoot, target);
  const relative = path.relative(resolvedRoot, resolvedTarget);
  if (relative.startsWith('..') || path.isAbsolute(relative)) {
    throw new Error(`Path ${target} escapes the configured workspace.`);
  }
  return resolvedTarget;
};
```
-/

def ensureWorkspacePath (workspaceRoot : List String) (target : RawPath) :
    Except String (List String) :=
  let resolvedRoot := resolveBase workspaceRoot
  let resolvedTarget := resolvePath workspaceRoot target
  let relative := pathRelative resolvedRoot resolvedTarget
  if relStartsWithDotDot relative || relIsAbsolute relative then
    .error "Path escapes the configured workspace."
  else
    .ok resolvedTarget

/-! The four sandboxed tools of the general agent validate their path input
through `ensureWorkspacePath` before any I/O happens
(src/unnamed/part_003: `writeFileSafe` lines 133-141, `readFileSafe`
lines 143-156, `listFilesSafe` lines 158-200, `runAllowedCommand`
lines 202-257).  We model the pure validation phase of each tool: the value
returned on success carries exactly the data the subsequent filesystem or
process call would use, so an `error` result means no side effect occurs. -/

structure WritePlan where
  resolved : List String
  content : String
deriving DecidableEq

def writeFileSafePlan (workspaceRoot : List String) (targetPath : RawPath)
    (content : String) : Except String WritePlan :=
  (ensureWorkspacePath workspaceRoot targetPath).map (fun r => ⟨r, content⟩)

def readFileSafePlan (workspaceRoot : List String) (targetPath : RawPath)
    (maxBytes : Option Nat) : Except String (List String × Nat) :=
  (ensureWorkspacePath workspaceRoot targetPath).map
    (fun r => (r, maxBytes.getD 100000))

def listFilesSafePlan (workspaceRoot : List String) (targetPath : Option RawPath) :
    Except String (List String) :=
  ensureWorkspacePath workspaceRoot (targetPath.getD ⟨false, ["."]⟩)

/-! ## The sandboxed command executor (src/unnamed/part_003, lines 88-257) -/

def commandAllowList : List String :=
  ["npm", "npx", "node", "pnpm", "yarn", "python", "python3", "pip", "uv",
   "ls", "cat", "pwd", "echo", "touch", "mkdir", "rm", "cp", "mv", "grep",
   "sed", "tail", "head"]

/-- Node `path.basename` of a command string modelled as a raw path. -/
def basename (p : RawPath) : String := p.comps.getLast?.getD ""

structure ShellCommandInput where
  command : RawPath
  args : Option (List String)
  cwd : Option RawPath
  timeoutMs : Option Nat

structure SpawnPlan where
  command : RawPath
  args : List String
  cwd : List String
  timeoutMs : Nat

/-- Validation phase of `runAllowedCommand` (src/unnamed/part_003, lines
202-227): the executable name must be on the allow-list and the
working directory must validate inside the workspace; only then is the
process spawned, with the returned parameters. -/
def runAllowedCommandPlan (workspaceRoot : List String)
    (input : ShellCommandInput) : Except String SpawnPlan := do
  let executable := basename input.command
  if executable ∈ commandAllowList then
    let cwd ← ensureWorkspacePath workspaceRoot (input.cwd.getD ⟨false, ["."]⟩)
    .ok ⟨input.command, input.args.getD [], cwd, input.timeoutMs.getD 120000⟩
  else
    .error "Command is not permitted in the sandbox."

/-! ## Key lemmas about `pathRelative` -/

theorem pathRelative_head_of_not_within :
    ∀ (R T : List String), ¬ R <+: T → (pathRelative R T).head? = some ".." := by
  intro R
  induction R with
  | nil => intro T h; exact absurd List.nil_prefix h
  | cons f fs ih =>
    intro T h
    cases T with
    | nil =>
      simp only [pathRelative, List.length_cons]
      rw [List.replicate_succ]
      rfl
    | cons t ts =>
      by_cases hft : f = t
      · subst hft
        have hts : ¬ fs <+: ts := by
          intro hc
          exact h (List.cons_prefix_cons.mpr ⟨rfl, hc⟩)
        simpa [pathRelative] using ih ts hts
      · simp only [pathRelative, if_neg hft]
        rw [List.replicate_succ]
        rfl

theorem within_of_head_ne_dotdot (R T : List String)
    (h : (pathRelative R T).head? ≠ some "..") : R <+: T := by
  by_contra hc
  exact h (pathRelative_head_of_not_within R T hc)

theorem relStartsWithDotDot_of_head_dotdot (rel : List String)
    (h : rel.head? = some "..") : relStartsWithDotDot rel = true := by
  cases rel with
  | nil => simp at h
  | cons c cs =>
    simp only [List.head?_cons, Option.some.injEq] at h
    subst h
    rfl

/-- C1 core, soundness direction: if the resolved target is neither the
resolved root nor one of its descendants, `ensureWorkspacePath` throws. -/
theorem ensureWorkspacePath_error_of_escape (workspaceRoot : List String)
    (target : RawPath)
    (h : ¬ resolveBase workspaceRoot <+: resolvePath workspaceRoot target) :
    ensureWorkspacePath workspaceRoot target =
      .error "Path escapes the configured workspace." := by
  have hhead := pathRelative_head_of_not_within _ _ h
  have hdd := relStartsWithDotDot_of_head_dotdot _ hhead
  unfold ensureWorkspacePath
  simp only [hdd, Bool.true_or, if_pos]

/-- C1 core, containment direction: whenever `ensureWorkspacePath` returns a
path, that path is the resolved target and lies at or below the root. -/
theorem ensureWorkspacePath_ok_within (workspaceRoot : List String)
    (target : RawPath) (p : List String)
    (h : ensureWorkspacePath workspaceRoot target = .ok p) :
    p = resolvePath workspaceRoot target ∧
      resolveBase workspaceRoot <+: p := by
  unfold ensureWorkspacePath at h
  by_cases hcond :
      (relStartsWithDotDot
          (pathRelative (resolveBase workspaceRoot)
            (resolvePath workspaceRoot target)) ||
        relIsAbsolute
          (pathRelative (resolveBase workspaceRoot)
            (resolvePath workspaceRoot target))) = true
  · simp only [hcond, if_pos] at h
    exact absurd h (by simp)
  · simp only [hcond, if_neg, Bool.not_eq_true] at h
    have hp : p = resolvePath workspaceRoot target := by
      simpa [Except.ok.injEq] using h.symm
    subst hp
    refine ⟨rfl, ?_⟩
    apply within_of_head_ne_dotdot
    intro hhead
    have := relStartsWithDotDot_of_head_dotdot _ hhead
    simp only [Bool.or_eq_true, not_or] at hcond
    exact absurd this (by simpa using hcond.1)

/-! ## Character-level string helpers

JavaScript strings are modelled through their character lists
(`String.data`); the helpers below are structural-recursive so that concrete
instances evaluate inside the kernel. -/

def splitOnCharAux (sep : Char) : List Char → List Char → List (List Char)
  | acc, [] => [acc.reverse]
  | acc, c :: rest =>
    if c = sep then acc.reverse :: splitOnCharAux sep [] rest
    else splitOnCharAux sep (c :: acc) rest

/-- JavaScript `s.split(sep)` for a single-character separator. -/
def splitOnChar (sep : Char) (l : List Char) : List (List Char) :=
  splitOnCharAux sep [] l

/-- The JavaScript `\s` character class (ECMA-262 WhiteSpace and
LineTerminator code points), which also backs `String.prototype.trim`. -/
def isJsSpace (c : Char) : Bool :=
  c.toNat = 0x20 || c.toNat = 0x09 || (0x0A ≤ c.toNat && c.toNat ≤ 0x0D) ||
  c.toNat = 0xA0 || c.toNat = 0x1680 ||
  (0x2000 ≤ c.toNat && c.toNat ≤ 0x200A) || c.toNat = 0x2028 ||
  c.toNat = 0x2029 || c.toNat = 0x202F || c.toNat = 0x205F ||
  c.toNat = 0x3000 || c.toNat = 0xFEFF

/-- JavaScript `s.trim()`. -/
def jsTrim (l : List Char) : List Char :=
  ((l.dropWhile isJsSpace).reverse.dropWhile isJsSpace).reverse

/-- Split a path string into `'/'`-separated components. -/
def strComps (s : String) : List String :=
  (splitOnChar '/' s.data).map (fun l => ⟨l⟩)

/-- Node `path.isAbsolute` on POSIX. -/
def isAbsoluteStr (s : String) : Bool := startsWithStr s "/"

def joinSlash : List String → String
  | [] => ""
  | [c] => c
  | c :: rest => c ++ "/" ++ joinSlash rest

/-- Render normalised absolute components back into the path string Node
would produce. -/
def renderAbs (comps : List String) : String := "/" ++ joinSlash comps

/-- JavaScript `s.includes(c)` for a single character. -/
def containsChar (c : Char) (s : String) : Bool := s.data.contains c

/-! ## `ensureWorkspacePath` (src/unnamed/part_010, lines 24-50)

```ts
export const ensureWorkspacePath = (candidate: string): string => {
  const trimmed = candidate.trim();
  if (!trimmed) { throw new CommandValidationError('Path argument cannot be empty.'); }
  const absolutePath = normalize(isAbsolute(trimmed) ? trimmed : resolve(WORKSPACE_ROOT, trimmed));
  const workspaceRelative = relative(WORKSPACE_ROOT, absolutePath);
  if (workspaceRelative === '' || workspaceRelative === '.' || workspaceRelative === undefined) {
    return absolutePath;
  }
  if (workspaceRelative.startsWith('..') || isAbsolute(workspaceRelative)) {
    throw new CommandValidationError(`Path "${candidate}" resolves outside of the workspace.`);
  }
  return absolutePath;
};
```

`WORKSPACE_ROOT` is `normalize(resolve(...))`, i.e. already normalised, so it
appears below as `resolveBase root`.  In the component model the `'.'` and
`undefined` comparisons of the first guard cannot arise: `path.relative`
returns the empty list for equal paths and never a bare `'.'`. -/

def absolutePath10 (root : List String) (trimmed : String) : List String :=
  if isAbsoluteStr trimmed then normComps (strComps trimmed) []
  else normComps (resolveBase root ++ strComps trimmed) []

def ensureWorkspacePath10 (root : List String) (candidate : String) :
    Except String String :=
  let trimmed : String := ⟨jsTrim candidate.data⟩
  if trimmed.data.isEmpty then .error "Path argument cannot be empty."
  else
    let absolutePath := absolutePath10 root trimmed
    let workspaceRelative := pathRelative (resolveBase root) absolutePath
    if workspaceRelative = [] then .ok (renderAbs absolutePath)
    else if relStartsWithDotDot workspaceRelative || relIsAbsolute workspaceRelative then
      .error ("Path \"" ++ candidate ++ "\" resolves outside of the workspace.")
    else .ok (renderAbs absolutePath)

theorem ensureWorkspacePath10_ok_within (root : List String) (candidate : String)
    (p : String) (h : ensureWorkspacePath10 root candidate = .ok p) :
    ∃ comps, p = renderAbs comps ∧ resolveBase root <+: comps := by
  unfold ensureWorkspacePath10 at h
  set trimmed : String := ⟨jsTrim candidate.data⟩ with htr
  by_cases hempty : trimmed.data.isEmpty = true
  · rw [if_pos hempty] at h
    exact absurd h (by simp)
  · rw [if_neg hempty] at h
    by_cases hnil : pathRelative (resolveBase root) (absolutePath10 root trimmed) = []
    · rw [if_pos hnil] at h
      refine ⟨absolutePath10 root trimmed, by simpa using h.symm, ?_⟩
      apply within_of_head_ne_dotdot
      rw [hnil]
      simp
    · rw [if_neg hnil] at h
      by_cases hcond :
          (relStartsWithDotDot
              (pathRelative (resolveBase root) (absolutePath10 root trimmed)) ||
            relIsAbsolute
              (pathRelative (resolveBase root) (absolutePath10 root trimmed))) = true
      · rw [if_pos hcond] at h
        exact absurd h (by simp)
      · rw [if_neg hcond] at h
        refine ⟨absolutePath10 root trimmed, by simpa using h.symm, ?_⟩
        apply within_of_head_ne_dotdot
        intro hhead
        have := relStartsWithDotDot_of_head_dotdot _ hhead
        simp only [Bool.or_eq_true, not_or] at hcond
        exact absurd this (by simpa using hcond.1)

theorem ensureWorkspacePath10_error_of_escape (root : List String)
    (candidate : String)
    (h : ¬ resolveBase root <+: absolutePath10 root ⟨jsTrim candidate.data⟩) :
    ∃ e, ensureWorkspacePath10 root candidate = .error e := by
  unfold ensureWorkspacePath10
  set trimmed : String := ⟨jsTrim candidate.data⟩ with htr
  by_cases hempty : trimmed.data.isEmpty = true
  · exact ⟨_, by rw [if_pos hempty]⟩
  · rw [if_neg hempty]
    have hhead := pathRelative_head_of_not_within _ _ h
    have hnil : pathRelative (resolveBase root) (absolutePath10 root trimmed) ≠ [] := by
      intro hc
      rw [hc] at hhead
      simp at hhead
    rw [if_neg hnil]
    have hdd := relStartsWithDotDot_of_head_dotdot _ hhead
    rw [if_pos (by simp [hdd])]
    exact ⟨_, rfl⟩

/-! ## Argument sanitisation (src/unnamed/part_010, lines 52-156)

The sandboxed executor of part_010 screens every argument: disallowed
interpreter flags throw, path-looking arguments are forced through
`ensureWorkspacePath`, and high-risk commands additionally require at least
one path-looking non-flag argument.  `existsSync(resolve(WORKSPACE_ROOT,
value))` is a filesystem probe and enters the model as the oracle `ex`. -/

def HIGH_RISK_COMMANDS : List String := ["rm", "cp", "mv", "python", "node"]

def DISALLOWED_FLAGS : String → Option (List String)
  | "python" => some ["-c", "--command", "-m", "-E", "-I", "-S"]
  | "node" => some ["-e", "--eval", "-p", "--print", "-i", "--interactive"]
  | _ => none

/-- Flag key of an argument: the part before the first `'='`, or the whole
argument (`arg.includes('=') ? arg.slice(0, arg.indexOf('=')) : arg`). -/
def flagKey (arg : String) : String :=
  if containsChar '=' arg then ⟨arg.data.takeWhile (fun c => c ≠ '=')⟩ else arg

def checkDisallowedFlag (command arg : String) : Except String Unit :=
  match DISALLOWED_FLAGS command with
  | none => .ok ()
  | some flags =>
    if flagKey arg ∈ flags then
      .error (command ++ " flag \"" ++ flagKey arg ++ "\" is not permitted.")
    else .ok ()

/-- Test of the regular expression `/[^=]+=/`: some `'='` directly preceded
by a non-`'='` character. -/
def hasKeyEq : List Char → Bool
  | a :: b :: rest => (decide (a ≠ '=') && decide (b = '=')) || hasKeyEq (b :: rest)
  | _ => false

def splitEqAux : List Char → List Char → Option (List Char × List Char)
  | _, [] => none
  | acc, c :: rest =>
    if c = '=' ∧ rest ≠ [] then some (acc.reverse, rest)
    else splitEqAux (c :: acc) rest

/-- JavaScript `arg.split(/=(.+)/)` reduced to the destructured
`[key, rawValue]`: the text before the first `'='` that still has characters
after it, and everything after that `'='`; `none` when the regex does not
match (then JavaScript returns `[arg]`, so the key is the whole argument). -/
def splitEq (s : String) : String × Option String :=
  match splitEqAux [] s.data with
  | some (k, v) => (⟨k⟩, some ⟨v⟩)
  | none => (s, none)

/-- Test of `/\.\w+$/`: a dot followed by at least one word character at the
end of the string. -/
def endsWithDotWord (s : String) : Bool :=
  let r := s.data.reverse
  let w := r.takeWhile (fun c => c.isAlphanum || c = '_')
  !w.isEmpty && ((r.drop w.length).head? == some '.')

/-- Body of `looksLikePath`; the fuel bounds the `key=value` recursion.
Every recursive call strictly shortens the value, so `length + 1` fuel never
runs out and the function agrees with the unbounded original. -/
def looksLikePathFuel (ex : String → Bool) : Nat → String → Bool
  | 0, _ => false
  | fuel + 1, value =>
    if value.data.isEmpty || startsWithStr value "-" then false
    else if value = "." ∨ value = ".." then true
    else if containsChar '/' value || containsChar '\\' value then true
    else if isAbsoluteStr value then true
    else if hasKeyEq value.data then
      looksLikePathFuel ex fuel (((splitEq value).2).getD "")
    else if endsWithDotWord value then true
    else ex value

def looksLikePath (ex : String → Bool) (value : String) : Bool :=
  looksLikePathFuel ex (value.data.length + 1) value

def sanitiseArgument (ex : String → Bool) (root : List String)
    (command arg : String) : Except String String := do
  let _ ← checkDisallowedFlag command arg
  if hasKeyEq arg.data then
    let key := (splitEq arg).1
    let rawValue := ((splitEq arg).2).getD ""
    if looksLikePath ex rawValue then do
      let safeValue ← ensureWorkspacePath10 root rawValue
      .ok (key ++ "=" ++ safeValue)
    else if command ∈ HIGH_RISK_COMMANDS then
      .error ("Argument \"" ++ arg ++ "\" for " ++ command ++
        " cannot be safely validated.")
    else .ok arg
  else if looksLikePath ex arg then
    ensureWorkspacePath10 root arg
  else if command ∈ HIGH_RISK_COMMANDS ∧ startsWithStr arg "-" = false then
    .error ("Argument \"" ++ arg ++ "\" for " ++ command ++
      " cannot be safely validated.")
  else .ok arg

/-- `sanitiseArguments` (src/unnamed/part_010, lines 136-156).  The
`hasValidatedPath` scan reads `args[index]` for each sanitised entry, which
is exactly an `any` over the original arguments. -/
def sanitiseArguments (ex : String → Bool) (root : List String)
    (command : String) (args : List String) : Except String (List String) := do
  let sanitised ← args.mapM (sanitiseArgument ex root command)
  if command ∈ HIGH_RISK_COMMANDS then
    if args.any (fun a => !(startsWithStr a "-") && looksLikePath ex a) then
      .ok sanitised
    else
      .error (command ++ " requires at least one workspace-relative path argument.")
  else .ok sanitised

structure SpawnPlan10 where
  command : String
  args : List String
  cwd : Option String
deriving DecidableEq

/-- Validation phase of part_010's `runAllowedCommand` (lines 158-201): the
arguments are sanitised and only then is the process spawned. -/
def runAllowedCommandPlan10 (ex : String → Bool) (root : List String)
    (command : String) (args : List String) (cwd : Option String) :
    Except String SpawnPlan10 :=
  (sanitiseArguments ex root command args).map (fun s => ⟨command, s, cwd⟩)

theorem mapM_error_of_mem {α β : Type} (f : α → Except String β) :
    ∀ (l : List α) (a : α), a ∈ l → (∃ e, f a = .error e) →
      ∃ e, l.mapM f = .error e := by
  intro l
  induction l with
  | nil => intro a ha; exact absurd ha (List.not_mem_nil a)
  | cons x xs ih =>
    intro a ha ⟨e, he⟩
    rw [List.mapM_cons]
    cases hx : f x with
    | error ex' => exact ⟨ex', by simp [hx, Bind.bind, Except.bind]⟩
    | ok b =>
      rcases List.mem_cons.mp ha with rfl | hmem
      · rw [hx] at he; exact absurd he (by simp)
      · obtain ⟨e', he'⟩ := ih a hmem ⟨e, he⟩
        simp only [List.mapM] at he'
        exact ⟨e', by simp [hx, he', List.mapM, Bind.bind, Except.bind]⟩

/-! ## Claim C1: workspace containment -/

/-- C1 (Workspace containment): for every path-bearing input of the
runCommand/writeArtifact/readArtifact/listArtifacts tools, if the path
resolved against the workspace root is neither the root itself nor one of
its descendants, path validation fails with a path-escapes-workspace error
and none of the four tools produces an I/O plan, so no filesystem or
process side effect occurs; whenever validation succeeds, the resolved
absolute path lies at or below the root.  Both `ensureWorkspacePath`
variants (src/unnamed/part_003 lines 121-131 and src/unnamed/part_010
lines 24-50) are covered. -/
theorem C1_workspace_containment (root : List String) (target : RawPath)
    (candidate : String) :
    (¬ resolveBase root <+: resolvePath root target →
      ensureWorkspacePath root target =
          .error "Path escapes the configured workspace." ∧
        (∀ content, ∃ e, writeFileSafePlan root target content = .error e) ∧
        (∀ maxBytes, ∃ e, readFileSafePlan root target maxBytes = .error e) ∧
        (∃ e, listFilesSafePlan root (some target) = .error e) ∧
        (∀ cmd args tmo, ∃ e,
          runAllowedCommandPlan root ⟨cmd, args, some target, tmo⟩ =
            .error e)) ∧
    (∀ p, ensureWorkspacePath root target = .ok p →
      p = resolvePath root target ∧ resolveBase root <+: p) ∧
    (¬ resolveBase root <+: absolutePath10 root ⟨jsTrim candidate.data⟩ →
      ∃ e, ensureWorkspacePath10 root candidate = .error e) ∧
    (∀ p, ensureWorkspacePath10 root candidate = .ok p →
      ∃ comps, p = renderAbs comps ∧ resolveBase root <+: comps) := by
  refine ⟨?_, ensureWorkspacePath_ok_within root target,
    ensureWorkspacePath10_error_of_escape root candidate,
    ensureWorkspacePath10_ok_within root candidate⟩
  intro h
  have herr := ensureWorkspacePath_error_of_escape root target h
  refine ⟨herr, ?_, ?_, ?_, ?_⟩
  · intro content
    exact ⟨"Path escapes the configured workspace.",
      by simp [writeFileSafePlan, herr, Except.map]⟩
  · intro maxBytes
    exact ⟨"Path escapes the configured workspace.",
      by simp [readFileSafePlan, herr, Except.map]⟩
  · exact ⟨"Path escapes the configured workspace.",
      by simp [listFilesSafePlan, herr]⟩
  · intro cmd args tmo
    by_cases hmem : basename cmd ∈ commandAllowList
    · refine ⟨"Path escapes the configured workspace.", ?_⟩
      simp [runAllowedCommandPlan, hmem, herr, Bind.bind, Except.bind]
    · refine ⟨"Command is not permitted in the sandbox.", ?_⟩
      simp [runAllowedCommandPlan, hmem]

/-- Witness for C1 at the spec's own example inputs: workspace root
`/workspace`, escaping input `../../etc/passwd` (and `../secret` for the
part_010 variant), accepted input `notes/log.txt`. -/
theorem C1_workspace_containment_witness :
    (¬ resolveBase ["workspace"] <+:
        resolvePath ["workspace"] ⟨false, ["..", "..", "etc", "passwd"]⟩) ∧
    ensureWorkspacePath ["workspace"] ⟨false, ["..", "..", "etc", "passwd"]⟩ =
      .error "Path escapes the configured workspace." ∧
    (∃ e, ensureWorkspacePath10 ["workspace"] "../secret" = .error e) ∧
    (∀ p, ensureWorkspacePath ["workspace"] ⟨false, ["notes", "log.txt"]⟩ =
        .ok p →
      p = resolvePath ["workspace"] ⟨false, ["notes", "log.txt"]⟩ ∧
        resolveBase ["workspace"] <+: p) :=
  ⟨by decide,
    ((C1_workspace_containment ["workspace"]
        ⟨false, ["..", "..", "etc", "passwd"]⟩ "../secret").1 (by decide)).1,
    (C1_workspace_containment ["workspace"]
        ⟨false, ["..", "..", "etc", "passwd"]⟩ "../secret").2.2.1 (by decide),
    (C1_workspace_containment ["workspace"]
        ⟨false, ["notes", "log.txt"]⟩ "../secret").2.1⟩

/-! ## Claim C4: command allow-list enforcement -/

/-- C4 (Allow-list enforcement): a requested command whose executable name
(the basename of the trimmed command string) is not in the fixed allow-list
is rejected by the sandboxed executor before any spawn attempt — no spawn
plan is produced; a command whose executable name is allow-listed, with a
working directory that validates inside the workspace, produces the spawn
plan with exactly the requested command, arguments, resolved cwd and
timeout (src/unnamed/part_003, lines 88-257). -/
theorem C4_allow_list_enforcement (root : List String)
    (input : ShellCommandInput) :
    (basename input.command ∉ commandAllowList →
      runAllowedCommandPlan root input =
        .error "Command is not permitted in the sandbox.") ∧
    (basename input.command ∈ commandAllowList →
      ∀ c, ensureWorkspacePath root (input.cwd.getD ⟨false, ["."]⟩) = .ok c →
        runAllowedCommandPlan root input =
          .ok ⟨input.command, input.args.getD [], c,
            input.timeoutMs.getD 120000⟩) := by
  constructor
  · intro h
    simp [runAllowedCommandPlan, h]
  · intro h c hc
    simp [runAllowedCommandPlan, h, hc, Bind.bind, Except.bind]

/-- Witness for C4 at the spec's examples: `curl` is rejected without a
spawn plan, `ls` with args `['-la', '.']` produces one. -/
theorem C4_allow_list_enforcement_witness :
    (basename ⟨false, ["curl"]⟩ ∉ commandAllowList) ∧
    runAllowedCommandPlan ["workspace"]
        ⟨⟨false, ["curl"]⟩, some ["https://example.com"], none, none⟩ =
      .error "Command is not permitted in the sandbox." ∧
    (basename ⟨false, ["ls"]⟩ ∈ commandAllowList) ∧
    runAllowedCommandPlan ["workspace"]
        ⟨⟨false, ["ls"]⟩, some ["-la", "."], none, none⟩ =
      .ok ⟨⟨false, ["ls"]⟩, ["-la", "."], ["workspace"], 120000⟩ :=
  ⟨by decide,
    (C4_allow_list_enforcement ["workspace"]
        ⟨⟨false, ["curl"]⟩, some ["https://example.com"], none, none⟩).1
      (by decide),
    by decide,
    (C4_allow_list_enforcement ["workspace"]
        ⟨⟨false, ["ls"]⟩, some ["-la", "."], none, none⟩).2
      (by decide) ["workspace"] rfl⟩

/-! ## Claim C3: high-risk command scrutiny -/

/-- Scrutiny of part_010's sanitiser: argument sanitisation rejects the
inline-code interpreter flags declared in `DISALLOWED_FLAGS` (the `-c`/`-e`
families for python/node); a high-risk command whose arguments contain no
non-flag path-looking entry is rejected even though it is allow-listed; in
particular `rm ['-rf', '--force']` is rejected for every filesystem oracle
and workspace root, while `rm ['-rf', 'build']` is accepted when `build`
exists in the workspace (src/unnamed/part_010, lines 52-156). -/
theorem C3_high_risk_scrutiny :
    (∀ (ex : String → Bool) (root : List String) (command : String)
        (args : List String) (cwd : Option String) (arg : String)
        (flags : List String),
      arg ∈ args → DISALLOWED_FLAGS command = some flags →
      flagKey arg ∈ flags →
      ∃ e, runAllowedCommandPlan10 ex root command args cwd = .error e) ∧
    (∀ (ex : String → Bool) (root : List String) (command : String)
        (args : List String) (cwd : Option String),
      command ∈ HIGH_RISK_COMMANDS →
      (∀ a ∈ args, startsWithStr a "-" = true ∨ looksLikePath ex a = false) →
      ∃ e, runAllowedCommandPlan10 ex root command args cwd = .error e) ∧
    (∀ (ex : String → Bool) (root : List String) (cwd : Option String),
      runAllowedCommandPlan10 ex root "rm" ["-rf", "--force"] cwd =
        .error "rm requires at least one workspace-relative path argument.") ∧
    runAllowedCommandPlan10 (fun s => s == "build") ["workspace"] "rm"
        ["-rf", "build"] none =
      .ok ⟨"rm", ["-rf", "/workspace/build"], none⟩ := by
  refine ⟨?_, ?_, ?_, ?_⟩
  · intro ex root command args cwd arg flags hmem hdf hfk
    have harg : ∃ e, sanitiseArgument ex root command arg = .error e := by
      refine ⟨command ++ " flag \"" ++ flagKey arg ++ "\" is not permitted.", ?_⟩
      simp [sanitiseArgument, checkDisallowedFlag, hdf, hfk, Bind.bind,
        Except.bind]
    obtain ⟨e, he⟩ :=
      mapM_error_of_mem (sanitiseArgument ex root command) args arg hmem harg
    simp only [List.mapM] at he
    exact ⟨e, by simp [runAllowedCommandPlan10, sanitiseArguments, List.mapM,
      he, Bind.bind, Except.bind, Except.map]⟩
  · intro ex root command args cwd hcmd hargs
    cases hm : args.mapM (sanitiseArgument ex root command) with
    | error e =>
      simp only [List.mapM] at hm
      exact ⟨e, by simp [runAllowedCommandPlan10, sanitiseArguments,
        List.mapM, hm, Bind.bind, Except.bind, Except.map]⟩
    | ok san =>
      have hany :
          args.any (fun a => !(startsWithStr a "-") && looksLikePath ex a) =
            false := by
        rw [List.any_eq_false]
        intro a ha
        rcases hargs a ha with h1 | h2
        · simp [h1]
        · simp [h2]
      simp only [List.mapM] at hm
      refine ⟨command ++ " requires at least one workspace-relative path argument.", ?_⟩
      simp [runAllowedCommandPlan10, sanitiseArguments, List.mapM, hm, hcmd,
        hany, Bind.bind, Except.bind, Except.map]
  · intro ex root cwd
    rfl
  · rfl

/-- Concrete instances of the sanitiser scrutiny: `python -c print(1)` is
rejected through the disallowed-flag scan, and high-risk `mv -v` (no
path-looking argument) is rejected despite being allow-listed. -/
theorem C3_high_risk_scrutiny_witness :
    (∃ e, runAllowedCommandPlan10 (fun _ => false) ["workspace"] "python"
        ["-c", "print(1)"] none = .error e) ∧
    (∃ e, runAllowedCommandPlan10 (fun _ => false) ["workspace"] "mv"
        ["-v"] none = .error e) :=
  ⟨C3_high_risk_scrutiny.1 (fun _ => false) ["workspace"] "python"
      ["-c", "print(1)"] none "-c"
      ["-c", "--command", "-m", "-E", "-I", "-S"] (by decide) rfl (by decide),
    C3_high_risk_scrutiny.2.1 (fun _ => false) ["workspace"] "mv" ["-v"] none
      (by decide) (by decide)⟩

/-- C3 (High-risk command scrutiny — code bug): the executor wired to the
general agent's runCommand tool (part_003's `runAllowedCommand`,
lines 202-257) performs no argument scrutiny at all: `rm ['-rf',
'--force']` — and even the parent-escaping `rm ['-rf', '../secret']` —
pass its allow-list and cwd checks and receive a spawn plan with the
arguments untouched.  The claimed scrutiny exists in the repository:
part_010's `sanitiseArguments` (lines 52-156), the exported executor the
security test of part_009 asserts against, rejects both inputs (the first
for every filesystem oracle, workspace root and cwd); the live wiring
simply lacks it. -/
theorem C3_command_scrutiny_code_bug :
    runAllowedCommandPlan ["workspace"]
        ⟨⟨false, ["rm"]⟩, some ["-rf", "--force"], none, none⟩ =
      .ok ⟨⟨false, ["rm"]⟩, ["-rf", "--force"], ["workspace"], 120000⟩ ∧
    runAllowedCommandPlan ["workspace"]
        ⟨⟨false, ["rm"]⟩, some ["-rf", "../secret"], none, none⟩ =
      .ok ⟨⟨false, ["rm"]⟩, ["-rf", "../secret"], ["workspace"], 120000⟩ ∧
    (∀ (ex : String → Bool) (root : List String) (cwd : Option String),
      runAllowedCommandPlan10 ex root "rm" ["-rf", "--force"] cwd =
        .error "rm requires at least one workspace-relative path argument.") ∧
    (∀ (ex : String → Bool) (cwd : Option String),
      runAllowedCommandPlan10 ex ["workspace"] "rm" ["-rf", "../secret"] cwd =
        .error "Path \"../secret\" resolves outside of the workspace.") := by
  refine ⟨rfl, rfl, ?_, ?_⟩
  · intro ex root cwd
    rfl
  · intro ex cwd
    rfl

/-! ## Completion-marker detection

`doneCondition` (src/src/agents/browserAgent.ts, lines 72-79) and
`hasDoneSignal` (src/unnamed/part_003, lines 113-119) are the same code:

```ts
const last = steps.at(-1);
if (!last) { return false; }
return /DONE:/i.test(last.text ?? '');
```

A step enters the model as its optional `text` field.  The case-insensitive
regular-expression test is a scan over every position of the subject; for
the all-ASCII pattern `DONE:` case-insensitive matching coincides with
comparison after ASCII upcasing. -/

def upperAscii (c : Char) : Char :=
  if 0x61 ≤ c.toNat ∧ c.toNat ≤ 0x7A then Char.ofNat (c.toNat - 32) else c

/-- Does `DONE:` match (case-insensitively) at the very start of `l`? -/
def matchesDoneAt (l : List Char) : Bool :=
  ((l.take 5).map upperAscii) == "DONE:".data

/-- Test of `/DONE:/i`: the pattern matches at some position. -/
def testDone : List Char → Bool
  | [] => false
  | c :: rest => matchesDoneAt (c :: rest) || testDone rest

def hasDoneSignal (steps : List (Option String)) : Bool :=
  match steps.getLast? with
  | none => false
  | some t => testDone (t.getD "").data

/-- Modelled from the spec: the claimed stop predicate — the text contains
the completion marker `DONE:` case-insensitively at the start of a line.
Declared only for comparison against the code's `hasDoneSignal`. -/
def specLineStartMarker (t : String) : Bool :=
  (splitOnChar '\n' t.data).any (fun line => matchesDoneAt line)

theorem matchesDoneAt_iff (l : List Char) :
    matchesDoneAt l = true ↔ "DONE:".data <+: l.map upperAscii := by
  unfold matchesDoneAt
  rw [beq_iff_eq, List.prefix_iff_eq_take]
  have hlen : "DONE:".data.length = 5 := rfl
  rw [hlen, ← List.map_take]
  exact eq_comm

theorem testDone_iff (l : List Char) :
    testDone l = true ↔ "DONE:".data <:+: l.map upperAscii := by
  induction l with
  | nil =>
    simp only [testDone, List.map_nil, Bool.false_eq_true, false_iff]
    intro h
    have := List.eq_nil_of_infix_nil h
    simp at this
  | cons c rest ih =>
    simp only [testDone, Bool.or_eq_true, List.map_cons]
    rw [List.infix_cons_iff, matchesDoneAt_iff, ih]
    simp [List.map_cons]

theorem hasDoneSignal_concat (steps : List (Option String)) (x : Option String) :
    hasDoneSignal (steps ++ [x]) = testDone (x.getD "").data := by
  simp [hasDoneSignal, List.getLast?_concat]

/-! ## Claim C5: completion-marker detection (corrected) -/

/-- C5 counterexample: the claim states the stop predicate holds iff the
most recent text contains `DONE:` case-insensitively *at the start of a
line*.  The code tests `/DONE:/i`, a substring match: on the text
`"noteDONE: finished"` the predicate fires even though no line starts with
the marker, so the claimed equivalence is false. -/
theorem C5_done_marker_counterexample :
    hasDoneSignal [some "noteDONE: finished"] = true ∧
    specLineStartMarker "noteDONE: finished" = false := by
  constructor
  · decide
  · decide

/-- C5 (amended): the stop predicate, evaluated after every turn, returns
true iff the most recent model-produced text contains `DONE:`
case-insensitively *anywhere* (not necessarily at the start of a line), and
returns false when there is no step yet. -/
theorem C5_done_marker_detection (steps : List (Option String)) :
    hasDoneSignal steps = true ↔
      ∃ t, steps.getLast? = some t ∧
        "DONE:".data <:+: (t.getD "").data.map upperAscii := by
  unfold hasDoneSignal
  cases h : steps.getLast? with
  | none => simp
  | some t => simp [testDone_iff]

/-! ## Claim C2: bounded termination

The turn driver itself is the ai-SDK `Agent` class, an external dependency.
Modelled from the spec: the loop runs one model turn at a time and stops as
soon as either stop condition fires — the code's `hasDoneSignal` on the
step list, or the step count reaching the cap
(`stopWhen: [doneCondition, stepCountIs(options.maxSteps ?? 6)]` in
src/src/agents/browserAgent.ts line 220, and
`stopWhen: [({steps}) => hasDoneSignal(steps), stepCountIs(options.maxSteps ?? 14)]`
in src/unnamed/part_003 line 446).  The model's behaviour is an oracle
giving the text produced on each turn; the fuel argument realises the step
cap. -/

def browserLoopCap (maxSteps : Option Nat) : Nat := maxSteps.getD 6

def generalLoopCap (maxSteps : Option Nat) : Nat := maxSteps.getD 14

def agentLoop (m : Nat → Option String) :
    Nat → List (Option String) → List (Option String)
  | 0, steps => steps
  | fuel + 1, steps =>
    if hasDoneSignal (steps ++ [m steps.length]) then steps ++ [m steps.length]
    else agentLoop m fuel (steps ++ [m steps.length])

def runAgentLoop (cap : Nat) (m : Nat → Option String) : List (Option String) :=
  agentLoop m cap []

theorem agentLoop_len_le (m : Nat → Option String) :
    ∀ (fuel : Nat) (steps : List (Option String)),
      (agentLoop m fuel steps).length ≤ steps.length + fuel := by
  intro fuel
  induction fuel with
  | zero => intro steps; simp [agentLoop]
  | succ n ih =>
    intro steps
    simp only [agentLoop]
    by_cases h : hasDoneSignal (steps ++ [m steps.length]) = true
    · rw [if_pos h]
      simp only [List.length_append, List.length_cons, List.length_nil]
      omega
    · rw [if_neg h]
      have := ih (steps ++ [m steps.length])
      simp only [List.length_append, List.length_cons, List.length_nil] at this
      omega

theorem agentLoop_len_no_done (m : Nat → Option String) :
    ∀ (fuel : Nat) (steps : List (Option String)),
      (∀ i, steps.length ≤ i → i < steps.length + fuel →
        testDone ((m i).getD "").data = false) →
      (agentLoop m fuel steps).length = steps.length + fuel := by
  intro fuel
  induction fuel with
  | zero => intro steps _; simp [agentLoop]
  | succ n ih =>
    intro steps h
    have hx : testDone ((m steps.length).getD "").data = false :=
      h steps.length le_rfl (by omega)
    simp only [agentLoop]
    rw [if_neg (by rw [hasDoneSignal_concat, hx]; simp)]
    have := ih (steps ++ [m steps.length]) (by
      intro i h1 h2
      simp only [List.length_append, List.length_cons, List.length_nil] at h1 h2
      exact h i (by omega) (by omega))
    simp only [List.length_append, List.length_cons, List.length_nil] at this
    omega

theorem agentLoop_len_early (m : Nat → Option String) :
    ∀ (fuel : Nat) (steps : List (Option String)) (k : Nat),
      steps.length ≤ k → k < steps.length + fuel →
      (∀ i, steps.length ≤ i → i < k →
        testDone ((m i).getD "").data = false) →
      testDone ((m k).getD "").data = true →
      (agentLoop m fuel steps).length = k + 1 := by
  intro fuel
  induction fuel with
  | zero => intro steps k h1 h2 _ _; omega
  | succ n ih =>
    intro steps k hk1 hk2 hno hdone
    by_cases heq : steps.length = k
    · simp only [agentLoop]
      rw [if_pos (by rw [hasDoneSignal_concat, heq, hdone])]
      simp only [List.length_append, List.length_cons, List.length_nil]
      omega
    · have hlt : steps.length < k := lt_of_le_of_ne hk1 heq
      have hx : testDone ((m steps.length).getD "").data = false :=
        hno steps.length le_rfl hlt
      simp only [agentLoop]
      rw [if_neg (by rw [hasDoneSignal_concat, hx]; simp)]
      apply ih (steps ++ [m steps.length]) k
      · simp only [List.length_append, List.length_cons, List.length_nil]
        omega
      · simp only [List.length_append, List.length_cons, List.length_nil]
        omega
      · intro i h1 h2
        simp only [List.length_append, List.length_cons, List.length_nil] at h1
        exact hno i (by omega) h2
      · exact hdone

/-- C2 (Bounded termination): for every step cap and every model behaviour,
the loop never runs more than the configured cap of turns; a model that
never emits the completion marker runs exactly the cap; a model that first
emits the marker on turn `k < cap` stops at that earlier turn, after `k + 1`
turns.  The default caps are 6 for the browser loop and 14 for the general
loop (`options.maxSteps ?? 6` / `options.maxSteps ?? 14`). -/
theorem C2_bounded_termination (cap : Nat) (m : Nat → Option String) :
    (runAgentLoop cap m).length ≤ cap ∧
    ((∀ i, i < cap → testDone ((m i).getD "").data = false) →
      (runAgentLoop cap m).length = cap) ∧
    (∀ k, k < cap →
      (∀ i, i < k → testDone ((m i).getD "").data = false) →
      testDone ((m k).getD "").data = true →
      (runAgentLoop cap m).length = k + 1) ∧
    browserLoopCap none = 6 ∧ generalLoopCap none = 14 := by
  refine ⟨?_, ?_, ?_, rfl, rfl⟩
  · have := agentLoop_len_le m cap []
    simpa [runAgentLoop] using this
  · intro h
    have := agentLoop_len_no_done m cap []
      (by intro i _ h2; exact h i (by simpa using h2))
    simpa [runAgentLoop] using this
  · intro k hk hno hdone
    have := agentLoop_len_early m cap [] k (by simp) (by simpa using hk)
      (by intro i _ h2; exact hno i h2) hdone
    simpa [runAgentLoop] using this

/-- Witness for C2: a model that never signals completion runs exactly 6
turns under the browser default cap and exactly 14 under the general
default cap; a model that signals completion on turn 2 (cap 6) stops after
3 turns. -/
theorem C2_bounded_termination_witness :
    (runAgentLoop 6 (fun _ => some "researching")).length = 6 ∧
    (runAgentLoop 14 (fun _ => some "researching")).length = 14 ∧
    (runAgentLoop 6
        (fun i => if i = 2 then some "DONE: summary ready"
          else some "researching")).length = 3 :=
  ⟨(C2_bounded_termination 6 (fun _ => some "researching")).2.1
      (fun _ _ => rfl),
   (C2_bounded_termination 14 (fun _ => some "researching")).2.1
      (fun _ _ => rfl),
   (C2_bounded_termination 6
        (fun i => if i = 2 then some "DONE: summary ready"
          else some "researching")).2.2.1 2 (by omega)
      (fun i hi => by
        have h2 : ¬ i = 2 := by omega
        simp only [h2, if_false]
        decide)
      (by decide)⟩

/-! ## Usage aggregation (src/unnamed/part_011, lines 3-25)

```ts
const totals: Record<string, number> = {};
const accumulate = (usage) => {
  if (!usage) return;
  Object.entries(usage).forEach(([key, value]) => {
    if (typeof value === 'number') { totals[key] = (totals[key] ?? 0) + value; }
  });
};
accumulate(primary); accumulate(secondary);
return totals;
```

A usage record enters the model as a mapping from counter names to optional
integer values; `none` models a field that is absent or non-numeric (the
source skips those).  The spec's data model (§3) fixes counter values as
integers, which float64 addition represents exactly in the relevant
range. -/

def Usage : Type := String → Option Int

/-- One `accumulate` pass: every numeric field of `u` is added onto
`totals`, a missing total counting as zero; all other fields of `totals`
are untouched. -/
def accumulate (totals : Usage) (u : Usage) : Usage := fun k =>
  match u k with
  | some v => some ((totals k).getD 0 + v)
  | none => totals k

def mergeUsage (primary secondary : Usage) : Usage :=
  accumulate (accumulate (fun _ => none) primary) secondary

theorem mergeUsage_apply (a b : Usage) (k : String) :
    mergeUsage a b k =
      match a k, b k with
      | none, none => none
      | some x, none => some x
      | none, some y => some y
      | some x, some y => some (x + y) := by
  unfold mergeUsage accumulate
  cases a k <;> cases b k <;> simp

def exampleUsageA : Usage := fun k =>
  if k = "input" then some 10 else if k = "output" then some 5 else none

def exampleUsageB : Usage := fun k =>
  if k = "output" then some 3 else if k = "total" then some 8 else none

def exampleUsageMerged : Usage := fun k =>
  if k = "input" then some 10 else if k = "output" then some 8
  else if k = "total" then some 8 else none

/-! ## Claim C7: usage aggregation -/

/-- C7 (Usage aggregation): `mergeUsage` is commutative and associative as
a mapping from counter names to values, sums same-named numeric fields,
treats a field absent from one input as zero, and never drops a counter
present in either input; merging `{input:10, output:5}` with
`{output:3, total:8}` yields `{input:10, output:8, total:8}` in either
merge order. -/
theorem C7_usage_aggregation :
    (∀ a b : Usage, mergeUsage a b = mergeUsage b a) ∧
    (∀ a b c : Usage,
      mergeUsage (mergeUsage a b) c = mergeUsage a (mergeUsage b c)) ∧
    (∀ (a b : Usage) (k : String) (x y : Int),
      a k = some x → b k = some y → mergeUsage a b k = some (x + y)) ∧
    (∀ (a b : Usage) (k : String) (x : Int),
      a k = some x → b k = none → mergeUsage a b k = some x) ∧
    (∀ (a b : Usage) (k : String) (y : Int),
      a k = none → b k = some y → mergeUsage a b k = some y) ∧
    (∀ (a b : Usage) (k : String),
      (a k).isSome ∨ (b k).isSome → (mergeUsage a b k).isSome) ∧
    mergeUsage exampleUsageA exampleUsageB = exampleUsageMerged ∧
    mergeUsage exampleUsageB exampleUsageA = exampleUsageMerged := by
  refine ⟨?_, ?_, ?_, ?_, ?_, ?_, ?_, ?_⟩
  · intro a b
    funext k
    rw [mergeUsage_apply, mergeUsage_apply]
    cases a k <;> cases b k <;> simp [Int.add_comm]
  · intro a b c
    funext k
    simp only [mergeUsage_apply]
    cases a k <;> cases b k <;> cases c k <;> simp [Int.add_assoc]
  · intro a b k x y ha hb
    rw [mergeUsage_apply, ha, hb]
  · intro a b k x ha hb
    rw [mergeUsage_apply, ha, hb]
  · intro a b k y ha hb
    rw [mergeUsage_apply, ha, hb]
  · intro a b k h
    rw [mergeUsage_apply]
    cases ha : a k <;> cases hb : b k <;> simp_all
  · funext k
    rw [mergeUsage_apply]
    unfold exampleUsageA exampleUsageB exampleUsageMerged
    by_cases h1 : k = "input" <;> by_cases h2 : k = "output" <;>
      by_cases h3 : k = "total" <;> simp_all
  · funext k
    rw [mergeUsage_apply]
    unfold exampleUsageA exampleUsageB exampleUsageMerged
    by_cases h1 : k = "input" <;> by_cases h2 : k = "output" <;>
      by_cases h3 : k = "total" <;> simp_all

/-- Witness for C7: the field-wise contract applied at the spec's example
records — present-in-both fields sum, one-sided fields survive. -/
theorem C7_usage_aggregation_witness :
    mergeUsage exampleUsageA exampleUsageB "output" = some 8 ∧
    mergeUsage exampleUsageA exampleUsageB "input" = some 10 ∧
    mergeUsage exampleUsageA exampleUsageB "total" = some 8 :=
  ⟨C7_usage_aggregation.2.2.1 exampleUsageA exampleUsageB "output" 5 3 rfl rfl,
   C7_usage_aggregation.2.2.2.1 exampleUsageA exampleUsageB "input" 10 rfl rfl,
   C7_usage_aggregation.2.2.2.2.1 exampleUsageA exampleUsageB "total" 8 rfl rfl⟩

/-! ## Infix survival under trimming and appending -/

theorem isJsSpace_upperAscii (c : Char) :
    isJsSpace (upperAscii c) = isJsSpace c := by
  unfold upperAscii
  by_cases h : 0x61 ≤ c.toNat ∧ c.toNat ≤ 0x7A
  · rw [if_pos h]
    have hval : (Char.ofNat (c.toNat - 32)).toNat = c.toNat - 32 := by
      have hvalid : (c.toNat - 32).isValidChar :=
        Or.inl (show c.toNat - 32 < 0xD800 by omega)
      rw [Char.ofNat, dif_pos hvalid]
      simp [Char.ofNatAux, Char.toNat, UInt32.toNat]
    have hlhs : isJsSpace (Char.ofNat (c.toNat - 32)) = false := by
      simp only [isJsSpace, hval, Bool.or_eq_false_iff, Bool.and_eq_false_iff,
        decide_eq_false_iff_not]
      omega
    have hrhs : isJsSpace c = false := by
      simp only [isJsSpace, Bool.or_eq_false_iff, Bool.and_eq_false_iff,
        decide_eq_false_iff_not]
      omega
    rw [hlhs, hrhs]
  · rw [if_neg h]

theorem infix_dropWhile {p : Char → Bool} (pat : List Char) (hne : pat ≠ [])
    (hpat : ∀ c ∈ pat, p c = false) :
    ∀ u : List Char, pat <:+: u → pat <:+: u.dropWhile p := by
  intro u
  induction u with
  | nil =>
    intro h
    have := List.eq_nil_of_infix_nil h
    exact absurd this hne
  | cons c rest ih =>
    intro h
    by_cases hc : p c = true
    · rw [List.dropWhile_cons, if_pos hc]
      rcases List.infix_cons_iff.mp h with hpre | hinf
      · cases pat with
        | nil => exact absurd rfl hne
        | cons d ds =>
          have hd := (List.cons_prefix_cons.mp hpre).1
          have := hpat d (List.mem_cons_self d ds)
          rw [hd] at this
          rw [this] at hc
          exact absurd hc (by simp)
      · exact ih hinf
    · rw [List.dropWhile_cons, if_neg hc]
      exact h

theorem infix_jsTrim (pat : List Char) (hne : pat ≠ [])
    (hpat : ∀ c ∈ pat, isJsSpace c = false) (u : List Char)
    (h : pat <:+: u) : pat <:+: jsTrim u := by
  unfold jsTrim
  have h1 : pat <:+: u.dropWhile isJsSpace := infix_dropWhile pat hne hpat u h
  have h2 : pat.reverse <:+: (u.dropWhile isJsSpace).reverse :=
    List.reverse_infix.mpr h1
  have h3 : pat.reverse <:+: (u.dropWhile isJsSpace).reverse.dropWhile isJsSpace := by
    apply infix_dropWhile pat.reverse (by simpa using hne)
      (by intro c hc; exact hpat c (List.mem_reverse.mp hc)) _ h2
  have h4 := List.reverse_infix.mpr h3
  simpa using h4

theorem jsTrim_map_upper (l : List Char) :
    (jsTrim l).map upperAscii = jsTrim (l.map upperAscii) := by
  have hcomp : (isJsSpace ∘ upperAscii) = isJsSpace := by
    funext c
    exact isJsSpace_upperAscii c
  have key : ∀ x : List Char,
      (x.map upperAscii).dropWhile isJsSpace =
        (x.dropWhile isJsSpace).map upperAscii := by
    intro x
    rw [List.dropWhile_map, hcomp]
  unfold jsTrim
  rw [List.map_reverse, ← key, List.map_reverse, ← key]

theorem testDone_jsTrim (l : List Char) (h : testDone l = true) :
    testDone (jsTrim l) = true := by
  rw [testDone_iff] at h ⊢
  rw [jsTrim_map_upper]
  exact infix_jsTrim "DONE:".data (by decide) (by decide) (l.map upperAscii) h

theorem testDone_append_right (s t : List Char) (h : testDone t = true) :
    testDone (s ++ t) = true := by
  induction s with
  | nil => simpa using h
  | cons c rest ih =>
    show (matchesDoneAt (c :: (rest ++ t)) || testDone (rest ++ t)) = true
    rw [ih]
    simp

/-! ## Reflection summary selection (src/src/agents/browserAgent.ts,
lines 240-257)

After the main loop, `runBrowserAgentTask` runs the single-shot reflection
pass (an external model call whose returned summary can be any text — on the
fallback path it is just the model's trimmed output) and then selects the
final summary:

```ts
if (/DONE:/i.test(reflection.summary)) { summary = reflection.summary.trim(); }
else if (/DONE:/i.test(summary))       { summary = summary.trim(); }
else { summary = `${summary.trim()}\nDONE: Review complete.`; }
```
-/

def reflectionSelect (draft reflSummary : List Char) : List Char :=
  if testDone reflSummary then jsTrim reflSummary
  else if testDone draft then jsTrim draft
  else jsTrim draft ++ "\nDONE: Review complete.".data

/-! ## Claim C6: reflection versus a marked summary (corrected) -/

/-- C6 counterexample: the claim states the reflection pass leaves a draft
summary that already carries the completion marker unchanged.  The code's
first branch prefers the reflection output whenever *it* carries the
marker, so a marker-bearing draft is replaced by a different
marker-bearing reflection output. -/
theorem C6_reflection_counterexample :
    testDone "Draft report. DONE: alpha".data = true ∧
    reflectionSelect "Draft report. DONE: alpha".data
        "Improved report. DONE: beta".data =
      "Improved report. DONE: beta".data ∧
    reflectionSelect "Draft report. DONE: alpha".data
        "Improved report. DONE: beta".data ≠
      "Draft report. DONE: alpha".data := by
  refine ⟨by decide, by decide, by decide⟩

/-- C6 (amended): when the reflection output carries the completion marker
the final summary becomes the trimmed reflection output (even if the draft
already carried the marker); when only the draft carries the marker the
draft is kept (re-trimmed, hence unchanged for the already-trimmed draft);
when neither carries it the controller appends the synthetic completion
line `DONE: Review complete.` rather than looping again — and in every
case the final summary carries the marker. -/
theorem C6_reflection_selection (draft reflSummary : List Char) :
    (testDone reflSummary = true →
      reflectionSelect draft reflSummary = jsTrim reflSummary) ∧
    (testDone reflSummary = false → testDone draft = true →
      reflectionSelect draft reflSummary = jsTrim draft) ∧
    (testDone reflSummary = false → testDone draft = false →
      reflectionSelect draft reflSummary =
        jsTrim draft ++ "\nDONE: Review complete.".data) ∧
    testDone (reflectionSelect draft reflSummary) = true := by
  refine ⟨?_, ?_, ?_, ?_⟩
  · intro h
    simp [reflectionSelect, h]
  · intro h1 h2
    simp [reflectionSelect, h1, h2]
  · intro h1 h2
    simp [reflectionSelect, h1, h2]
  · unfold reflectionSelect
    by_cases h1 : testDone reflSummary = true
    · rw [if_pos h1]
      exact testDone_jsTrim _ h1
    · rw [if_neg h1]
      by_cases h2 : testDone draft = true
      · rw [if_pos h2]
        exact testDone_jsTrim _ h2
      · rw [if_neg h2]
        exact testDone_append_right _ _ (by decide)

/-- Witness for C6: applying the selection contract at concrete summaries —
a marker-free reflection output keeps the marked draft, and a marker-free
pair gains the synthetic completion line. -/
theorem C6_reflection_selection_witness :
    reflectionSelect "Summary kept. DONE: done".data "no marker here".data =
      jsTrim "Summary kept. DONE: done".data ∧
    reflectionSelect "plain draft".data "plain reflection".data =
      jsTrim "plain draft".data ++ "\nDONE: Review complete.".data :=
  ⟨(C6_reflection_selection "Summary kept. DONE: done".data
      "no marker here".data).2.1 (by decide) (by decide),
   (C6_reflection_selection "plain draft".data
      "plain reflection".data).2.2.1 (by decide) (by decide)⟩

/-! ## Text sanitisation and truncation (src/src/util/text.ts)

```ts
export const truncateText = (value, limit) => {
  if (limit <= 0) return '';
  if (value.length <= limit) return value;
  if (limit <= 3) return value.slice(0, limit);
  return `${value.slice(0, limit - 3)}...`;
};
export const sanitiseWhitespace = (value) =>
  value.replace(/\s+/g, ' ').replace(/[\u0000-\u001F\u007F]/g, '').trim();
```
-/

def isCtrlChar (c : Char) : Bool := c.toNat ≤ 0x1F || c.toNat = 0x7F

/-- `value.replace(/\s+/g, ' ')`: each maximal whitespace run becomes one
space; the flag records whether the current run already emitted its
space. -/
def collapseWs : Bool → List Char → List Char
  | _, [] => []
  | inRun, c :: rest =>
    if isJsSpace c then
      if inRun then collapseWs true rest else ' ' :: collapseWs true rest
    else c :: collapseWs false rest

def sanitiseWhitespace (l : List Char) : List Char :=
  jsTrim ((collapseWs false l).filter (fun c => !isCtrlChar c))

/-- `truncateText`; the JavaScript numeric limit enters as an integer (the
infinite default of `extractText` is handled by the caller model below). -/
def truncateText (value : List Char) (limit : Int) : List Char :=
  if limit ≤ 0 then []
  else if (value.length : Int) ≤ limit then value
  else if limit ≤ 3 then value.take limit.toNat
  else value.take (limit.toNat - 3) ++ "...".data

/-! ## `extractText` (src/src/agents/playwrightController.ts, lines 43-63)

The raw text produced by the page (`allInnerTexts` join or
`document.body.innerText`) enters as an oracle input; the controller then
computes `sanitiseWhitespace`, truncates with
`maxCharacters ?? Number.POSITIVE_INFINITY` (an infinite limit leaves the
cleaned text unchanged, which the `none` branch encodes), and returns
`{ text, characters: text.length }`. -/

def extractTextModel (rawText : List Char) (maxCharacters : Option Int) :
    List Char × Nat :=
  let cleaned := sanitiseWhitespace rawText
  let truncated :=
    match maxCharacters with
    | some l => truncateText cleaned l
    | none => cleaned
  (truncated, truncated.length)

theorem extractTextModel_some (raw : List Char) (l : Int) :
    extractTextModel raw (some l) =
      (truncateText (sanitiseWhitespace raw) l,
        (truncateText (sanitiseWhitespace raw) l).length) := rfl

theorem extractTextModel_none (raw : List Char) :
    extractTextModel raw none =
      (sanitiseWhitespace raw, (sanitiseWhitespace raw).length) := rfl

/-! ## Helper lemmas on trimming and truncation -/

theorem head_dropWhile_false {p : Char → Bool} :
    ∀ (l : List Char) (c : Char), (l.dropWhile p).head? = some c →
      p c = false := by
  intro l
  induction l with
  | nil => intro c h; simp at h
  | cons x xs ih =>
    intro c h
    by_cases hx : p x = true
    · rw [List.dropWhile_cons, if_pos hx] at h
      exact ih c h
    · rw [List.dropWhile_cons, if_neg hx] at h
      simp only [List.head?_cons, Option.some.injEq] at h
      subst h
      simp at hx
      exact hx

theorem jsTrim_getLast (y : List Char) (c : Char)
    (h : (jsTrim y).getLast? = some c) : isJsSpace c = false := by
  unfold jsTrim at h
  rw [List.getLast?_reverse] at h
  exact head_dropWhile_false _ c h

theorem jsTrim_head (y : List Char) (c : Char)
    (h : (jsTrim y).head? = some c) : isJsSpace c = false := by
  have hsuf : (y.dropWhile isJsSpace).reverse.dropWhile isJsSpace <:+
      (y.dropWhile isJsSpace).reverse := List.dropWhile_suffix _
  have hpre : jsTrim y <+: y.dropWhile isJsSpace := by
    apply List.reverse_suffix.mp
    simpa [jsTrim] using hsuf
  obtain ⟨t, ht⟩ := hpre
  have hh : (y.dropWhile isJsSpace).head? = some c := by
    rw [← ht]
    cases hx : jsTrim y with
    | nil => rw [hx] at h; simp at h
    | cons z zs =>
      rw [hx] at h
      simp only [List.head?_cons, Option.some.injEq] at h
      subst h
      simp
  exact head_dropWhile_false _ c hh

theorem mem_of_mem_jsTrim {c : Char} {y : List Char} (h : c ∈ jsTrim y) :
    c ∈ y := by
  unfold jsTrim at h
  rw [List.mem_reverse] at h
  have h1 : c ∈ (y.dropWhile isJsSpace).reverse :=
    (List.dropWhile_sublist _).subset h
  rw [List.mem_reverse] at h1
  exact (List.dropWhile_sublist _).subset h1

theorem sanitise_no_ctrl (l : List Char) :
    ∀ c ∈ sanitiseWhitespace l, isCtrlChar c = false := by
  intro c hc
  unfold sanitiseWhitespace at hc
  have h1 := mem_of_mem_jsTrim hc
  have h2 := List.of_mem_filter h1
  simpa using h2

theorem truncateText_head (v : List Char) (lim : Int) (c : Char)
    (h : (truncateText v lim).head? = some c) : v.head? = some c := by
  unfold truncateText at h
  by_cases h1 : lim ≤ 0
  · rw [if_pos h1] at h; simp at h
  · rw [if_neg h1] at h
    by_cases h2 : (v.length : Int) ≤ lim
    · rw [if_pos h2] at h; exact h
    · rw [if_neg h2] at h
      by_cases h3 : lim ≤ 3
      · rw [if_pos h3] at h
        cases v with
        | nil => simp at h
        | cons y ys =>
          cases hk : lim.toNat with
          | zero => omega
          | succ k =>
            rw [hk, List.take_succ_cons] at h
            simp only [List.head?_cons, Option.some.injEq] at h ⊢
            exact h
      · rw [if_neg h3] at h
        cases v with
        | nil => simp at h2; omega
        | cons y ys =>
          cases hk : lim.toNat - 3 with
          | zero => omega
          | succ k =>
            rw [hk, List.take_succ_cons] at h
            simp only [List.cons_append, List.head?_cons,
              Option.some.injEq] at h ⊢
            exact h

theorem truncateText_len_le (v : List Char) (lim : Int) (h0 : 0 < lim) :
    ((truncateText v lim).length : Int) ≤ lim := by
  unfold truncateText
  by_cases h1 : lim ≤ 0
  · rw [if_pos h1]; simp; omega
  · rw [if_neg h1]
    by_cases h2 : (v.length : Int) ≤ lim
    · rw [if_pos h2]; exact h2
    · rw [if_neg h2]
      by_cases h3 : lim ≤ 3
      · rw [if_pos h3]
        have hle : (v.take lim.toNat).length ≤ lim.toNat :=
          List.length_take_le _ _
        omega
      · rw [if_neg h3]
        have hle : (v.take (lim.toNat - 3)).length ≤ lim.toNat - 3 :=
          List.length_take_le _ _
        have hdots : ("...".data).length = 3 := rfl
        simp only [List.length_append, hdots]
        omega

theorem truncateText_mem (v : List Char) (lim : Int) (c : Char)
    (h : c ∈ truncateText v lim) : c ∈ v ∨ c = '.' := by
  unfold truncateText at h
  by_cases h1 : lim ≤ 0
  · rw [if_pos h1] at h; simp at h
  · rw [if_neg h1] at h
    by_cases h2 : (v.length : Int) ≤ lim
    · rw [if_pos h2] at h; exact Or.inl h
    · rw [if_neg h2] at h
      by_cases h3 : lim ≤ 3
      · rw [if_pos h3] at h
        exact Or.inl (List.mem_of_mem_take h)
      · rw [if_neg h3] at h
        rcases List.mem_append.mp h with h4 | h4
        · exact Or.inl (List.mem_of_mem_take h4)
        · right
          have hd : "...".data = ['.', '.', '.'] := rfl
          rw [hd] at h4
          simpa using h4

theorem truncateText_of_short (v : List Char) (lim : Int) (h0 : 0 < lim)
    (h2 : (v.length : Int) ≤ lim) : truncateText v lim = v := by
  unfold truncateText
  rw [if_neg (by omega), if_pos h2]

/-! ## Claim C10: extractText output normalisation (corrected) -/

/-- C10 counterexample: the claim says the returned text never carries
leading or trailing whitespace.  With `maxCharacters = 3` (a positive
integer the input schema admits) and page text `"ab cd"`, `truncateText`
takes the raw 3-character slice `"ab "`, which ends in a space. -/
theorem C10_extract_text_counterexample :
    (extractTextModel "ab cd".data (some 3)).1 = "ab ".data ∧
    (extractTextModel "ab cd".data (some 3)).1.getLast? = some ' ' ∧
    isJsSpace ' ' = true := by
  refine ⟨by decide, by decide, by decide⟩

/-- C10 (amended): for every successful extractText call, `characters`
equals the length of the returned text, the text contains no ASCII control
characters and no leading whitespace, and with a positive `maxCharacters`
its length is at most `maxCharacters`; the text also has no trailing
whitespace whenever no truncation occurs (no `maxCharacters`, or the
cleaned text already fits the budget) — only a truncated text may end in a
space (for limits of at most 3, as the counterexample shows). -/
theorem C10_extract_text_normalisation (rawText : List Char)
    (maxCharacters : Option Int) :
    (extractTextModel rawText maxCharacters).2 =
      (extractTextModel rawText maxCharacters).1.length ∧
    (∀ c ∈ (extractTextModel rawText maxCharacters).1,
      isCtrlChar c = false) ∧
    (∀ c, (extractTextModel rawText maxCharacters).1.head? = some c →
      isJsSpace c = false) ∧
    (∀ l, maxCharacters = some l → 0 < l →
      (((extractTextModel rawText maxCharacters).1.length : Int) ≤ l)) ∧
    (maxCharacters = none →
      ∀ c, (extractTextModel rawText maxCharacters).1.getLast? = some c →
        isJsSpace c = false) ∧
    (∀ l, maxCharacters = some l → 0 < l →
      ((sanitiseWhitespace rawText).length : Int) ≤ l →
      ∀ c, (extractTextModel rawText maxCharacters).1.getLast? = some c →
        isJsSpace c = false) := by
  cases maxCharacters with
  | none =>
    rw [extractTextModel_none]
    refine ⟨rfl, ?_, ?_, ?_, ?_, ?_⟩
    · intro c hc
      exact sanitise_no_ctrl rawText c hc
    · intro c hc
      exact jsTrim_head _ c hc
    · intro l hl
      exact absurd hl (by simp)
    · intro _ c hc
      exact jsTrim_getLast _ c hc
    · intro l hl
      exact absurd hl (by simp)
  | some L =>
    rw [extractTextModel_some]
    refine ⟨rfl, ?_, ?_, ?_, ?_, ?_⟩
    · intro c hc
      rcases truncateText_mem _ _ _ hc with h | h
      · exact sanitise_no_ctrl rawText c h
      · rw [h]; decide
    · intro c hc
      exact jsTrim_head _ c (truncateText_head _ _ _ hc)
    · intro l hl h0
      have : L = l := by simpa using hl
      subst this
      exact truncateText_len_le _ _ h0
    · intro hl
      exact absurd hl (by simp)
    · intro l hl h0 hlen c hc
      have : L = l := by simpa using hl
      subst this
      rw [truncateText_of_short _ _ h0 hlen] at hc
      exact jsTrim_getLast _ c hc

/-- Witness for C10: a positive budget of 8 bounds the output length, and
an unbounded extraction of `"  Hello\n\nworld  "` yields the fully
normalised `"Hello world"`. -/
theorem C10_extract_text_normalisation_witness :
    (((extractTextModel "  Hello \x01 world  ".data (some 8)).1.length : Int)
        ≤ 8) ∧
    (extractTextModel "  Hello\n\nworld  ".data none).1 =
      "Hello world".data :=
  ⟨(C10_extract_text_normalisation "  Hello \x01 world  ".data
      (some 8)).2.2.2.1 8 rfl (by decide),
   by decide⟩

/-! ## Browser-capability lifecycle (claim C8)

`PlaywrightController.close` (src/src/agents/playwrightController.ts,
lines 74-79) closes the page context and the browser and nulls both
fields, so a second invocation finds nothing to close:

```ts
async close(): Promise<void> {
  await this.page?.context().close();
  await this.browser?.close();
  this.page = null;
  this.browser = null;
}
```

The number of `close()` invocations on one controller instance is tracked
by a state-passing computation; the external model calls
(`agent.generate`, the reflection `generateText`) enter as `Except`
oracles, which never touch the controller's `close`. -/

structure ControllerState where
  pageOpen : Bool
  browserOpen : Bool
deriving DecidableEq

def controllerClose (_ : ControllerState) : ControllerState := ⟨false, false⟩

def CloseM (α : Type) : Type := Nat → Except String α × Nat

def pureM {α : Type} (a : α) : CloseM α := fun n => (.ok a, n)

def liftM {α : Type} (r : Except String α) : CloseM α := fun n => (r, n)

def closeM : CloseM Unit := fun n => (.ok (), n + 1)

def bindM {α β : Type} (x : CloseM α) (f : α → CloseM β) : CloseM β := fun n =>
  match x n with
  | (.ok a, n') => f a n'
  | (.error e, n') => (.error e, n')

/-- `try { body } finally { fin }`: the finaliser runs on both paths and
the body's outcome stands (the modelled finaliser, `close`, does not
throw). -/
def tryFinallyM {α : Type} (body : CloseM α) (fin : CloseM Unit) :
    CloseM α := fun n =>
  match body n with
  | (.ok a, n') => (.ok a, (fin n').2)
  | (.error e, n') => (.error e, (fin n').2)

/-- `try { body } catch (e) { handler e }`. -/
def tryCatchM {α : Type} (body : CloseM α) (handler : String → CloseM α) :
    CloseM α := fun n =>
  match body n with
  | (.ok a, n') => (.ok a, n')
  | (.error e, n') => handler e n'

/-- Control flow of `runBrowserAgentTask` (src/src/agents/browserAgent.ts,
lines 182-267): create the controller, run the loop inside `try`, run the
reflection pass when enabled (`options.enableReflection !== false`), select
the summary, and `close()` the controller in `finally`. -/
def runBrowserAgentTaskM (gen refl : Except String (List Char))
    (enableReflection : Bool) : CloseM (List Char) :=
  tryFinallyM
    (bindM (liftM gen) (fun text =>
      let draft := jsTrim text
      if enableReflection then
        bindM (liftM refl) (fun reflSummary =>
          pureM (reflectionSelect draft reflSummary))
      else
        pureM draft))
    closeM

def browserCloseCount (gen refl : Except String (List Char))
    (enableReflection : Bool) : Nat :=
  (runBrowserAgentTaskM gen refl enableReflection 0).2

/-- Control flow of `TaskSessionService.runSession`
(src/unnamed/part_001, lines 101-183): the browser-agent run receives the
session's own `BrowserToolService` through `controllerFactory` (reflection
defaults on), so the inner `finally` already closes it; the session wraps
the run in `try`/`catch` (store/emit operations elided — they never close)
and closes the same service again in its own `finally`
(`BrowserToolService.close` simply forwards to the controller,
src/unnamed/part_007 lines 82-84). -/
def runSessionM (gen refl : Except String (List Char)) : CloseM Unit :=
  tryFinallyM
    (tryCatchM
      (bindM (runBrowserAgentTaskM gen refl true) (fun _ => pureM ()))
      (fun _ => pureM ()))
    closeM

def sessionCloseCount (gen refl : Except String (List Char)) : Nat :=
  (runSessionM gen refl 0).2

/-! ## Claim C8: browser-capability cleanup (corrected) -/

/-- C8 counterexample: in a server session run the shared
browser-capability instance is closed twice — once by
`runBrowserAgentTask`'s `finally` and once by `runSession`'s `finally` —
so "close() invoked exactly once" fails for session runs. -/
theorem C8_cleanup_counterexample :
    sessionCloseCount (.ok "Summary. DONE: ok".data) (.ok "fine".data) = 2 ∧
    sessionCloseCount (.error "browser crashed") (.ok "fine".data) = 2 := by
  refine ⟨rfl, rfl⟩

/-- C8 (amended): `close()` is invoked on both the success path and when
the loop throws — exactly once per standalone browser-agent run for every
loop/reflection outcome, and exactly twice per server session run (the
inner run's cleanup plus the session's own cleanup); the second call is
harmless because `close` resets the page and browser fields, making it
idempotent. -/
theorem C8_cleanup_behaviour (gen refl : Except String (List Char))
    (enableReflection : Bool) (s : ControllerState) :
    browserCloseCount gen refl enableReflection = 1 ∧
    sessionCloseCount gen refl = 2 ∧
    controllerClose (controllerClose s) = controllerClose s := by
  refine ⟨?_, ?_, rfl⟩
  · cases gen <;> cases refl <;> cases enableReflection <;> rfl
  · cases gen <;> cases refl <;> rfl

/-! ## Session store and status lifecycle (claims cited by C9)

`MemorySessionStore` (src/unnamed/part_008) spreads partial updates over
the stored record; the per-call-site updates the service issues are
modelled on a single session's record (the store is keyed by id and
operations on one id never touch another; `updatedAt` timestamps are
outside the model).  `completeAction` overwrites the matching action with
the finished action record (`{...existing, ...action}` with a full
`BrowserAction`). -/

inductive TaskStatus where
  | pending
  | running
  | completed
  | failed
  | cancelled
deriving DecidableEq, Repr

structure ActionRec where
  typ : String
  startedAt : Nat
  finishedAt : Option Nat
  error : Option String
deriving DecidableEq

structure SessionRec where
  status : TaskStatus
  summary : Option String
  messages : List String
  actions : List ActionRec
deriving DecidableEq

def storeSetStatus (s : SessionRec) (st : TaskStatus) : SessionRec :=
  { s with status := st }

def storeAppendMessage (s : SessionRec) (m : String) : SessionRec :=
  { s with messages := s.messages ++ [m] }

def storeAppendAction (s : SessionRec) (a : ActionRec) : SessionRec :=
  { s with actions := s.actions ++ [a] }

def storeCompleteAction (s : SessionRec) (a : ActionRec) : SessionRec :=
  { s with actions :=
      s.actions.map (fun e =>
        if e.startedAt = a.startedAt ∧ e.typ = a.typ then a else e) }

def storeUpdateCompleted (s : SessionRec) (sum : String) : SessionRec :=
  { s with summary := some sum, status := .completed }

def storeUpdateFailed (s : SessionRec) : SessionRec :=
  { s with status := .failed }

/-- `createSession` (src/unnamed/part_001, lines 38-71) seeds status
`pending` and a single user message. -/
def createdSession (goal : String) : SessionRec :=
  ⟨.pending, none, [goal], []⟩

/-- The store writes a run may interleave while the agent works: the
wrapped browser actions emit `action-started` (append) and
`action-finished` (complete) events. -/
inductive MidOp where
  | actStart (a : ActionRec)
  | actFinish (a : ActionRec)

def applyMidOp (s : SessionRec) : MidOp → SessionRec
  | .actStart a => storeAppendAction s a
  | .actFinish a => storeCompleteAction s a

def scanMid (s : SessionRec) : List MidOp → List SessionRec
  | [] => []
  | op :: rest =>
    let s' := applyMidOp s op
    s' :: scanMid s' rest

/-- The sequence of session states produced by one
`TaskSessionService.runSession` run (src/unnamed/part_001, lines 101-183):
status to `running`; the action writes; then on success (`outcome = some
summary`) the assistant message and the `completed` update, on failure the
failure message and the `failed` update. -/
def sessionTrajectory (goal : String) (mid : List MidOp)
    (outcome : Option String) (failMsg : String) : List SessionRec :=
  let s0 := createdSession goal
  let s1 := storeSetStatus s0 .running
  let midStates := scanMid s1 mid
  let s2 := midStates.getLast?.getD s1
  match outcome with
  | some summary =>
    s0 :: s1 :: midStates ++
      [storeAppendMessage s2 summary,
        storeUpdateCompleted (storeAppendMessage s2 summary) summary]
  | none =>
    s0 :: s1 :: midStates ++
      [storeAppendMessage s2 failMsg,
        storeUpdateFailed (storeAppendMessage s2 failMsg)]

/-- Allowed transitions of the claim: stay, pending to running, running to
a terminal result. -/
def sessionStepOk (s₁ s₂ : TaskStatus) : Prop :=
  s₁ = s₂ ∨ (s₁ = .pending ∧ s₂ = .running) ∨
    (s₁ = .running ∧ (s₂ = .completed ∨ s₂ = .failed))

theorem applyMidOp_status (s : SessionRec) (op : MidOp) :
    (applyMidOp s op).status = s.status := by
  cases op <;> rfl

theorem scanMid_statuses :
    ∀ (mid : List MidOp) (s : SessionRec),
      (scanMid s mid).map SessionRec.status =
        List.replicate mid.length s.status := by
  intro mid
  induction mid with
  | nil => intro s; rfl
  | cons op rest ih =>
    intro s
    show (applyMidOp s op).status ::
        (scanMid (applyMidOp s op) rest).map SessionRec.status =
      List.replicate (op :: rest).length s.status
    rw [ih (applyMidOp s op), applyMidOp_status, List.length_cons,
      List.replicate_succ]

theorem scanMid_getLast_status :
    ∀ (mid : List MidOp) (s : SessionRec),
      (((scanMid s mid).getLast?).getD s).status = s.status := by
  intro mid
  induction mid with
  | nil => intro s; rfl
  | cons op rest ih =>
    intro s
    show ((((applyMidOp s op) :: scanMid (applyMidOp s op) rest).getLast?).getD
        s).status = s.status
    cases hrest : scanMid (applyMidOp s op) rest with
    | nil => simp [applyMidOp_status]
    | cons y ys =>
      rw [List.getLast?_cons_cons]
      have hih := ih (applyMidOp s op)
      rw [hrest] at hih
      cases hz : (y :: ys).getLast? with
      | none => simp at hz
      | some z =>
        rw [hz] at hih
        simp only [Option.getD_some] at hih ⊢
        rw [hih, applyMidOp_status]

theorem sessionTrajectory_statuses (goal : String) (mid : List MidOp)
    (outcome : Option String) (failMsg : String) :
    (sessionTrajectory goal mid outcome failMsg).map SessionRec.status =
      .pending :: .running :: List.replicate mid.length .running ++
        [.running, if outcome.isSome then .completed else .failed] := by
  cases outcome with
  | some summary =>
    simp [sessionTrajectory, List.map_cons, List.map_append,
      scanMid_statuses, scanMid_getLast_status, createdSession,
      storeSetStatus, storeAppendMessage, storeUpdateCompleted]
  | none =>
    simp [sessionTrajectory, List.map_cons, List.map_append,
      scanMid_statuses, scanMid_getLast_status, createdSession,
      storeSetStatus, storeAppendMessage, storeUpdateFailed]

theorem chain_running_block (T : TaskStatus)
    (hT : T = .completed ∨ T = .failed) :
    ∀ n : Nat, List.Chain' sessionStepOk
      (.running :: List.replicate n .running ++ [.running, T]) := by
  intro n
  induction n with
  | zero =>
    show List.Chain' sessionStepOk [.running, .running, T]
    rw [List.chain'_cons, List.chain'_cons]
    refine ⟨Or.inl rfl, Or.inr (Or.inr ⟨rfl, hT⟩), ?_⟩
    simp
  | succ k ih =>
    rw [List.replicate_succ, List.cons_append]
    exact List.chain'_cons.mpr ⟨Or.inl rfl, ih⟩

/-! ## Claim C9: session status monotonicity -/

/-- C9 (Session status monotonicity): along every session trajectory the
session service's operations can produce — creation at `pending`, the
run's transition to `running`, any interleaving of action writes, the
final assistant message and the terminal update — consecutive statuses
move only along pending → running → {completed, failed}; a terminal status
occurs only as the very last state, so once a session is completed or
failed no further status mutation happens, and every run ends terminal. -/
theorem C9_session_status_monotonic (goal : String) (mid : List MidOp)
    (outcome : Option String) (failMsg : String) :
    List.Chain' sessionStepOk
      ((sessionTrajectory goal mid outcome failMsg).map SessionRec.status) ∧
    (∀ st ∈ ((sessionTrajectory goal mid outcome failMsg).map
        SessionRec.status).dropLast,
      st ≠ .completed ∧ st ≠ .failed ∧ st ≠ .cancelled) ∧
    (((sessionTrajectory goal mid outcome failMsg).map
        SessionRec.status).getLast? = some .completed ∨
      ((sessionTrajectory goal mid outcome failMsg).map
        SessionRec.status).getLast? = some .failed) := by
  rw [sessionTrajectory_statuses]
  have hTor : (if outcome.isSome then TaskStatus.completed
      else TaskStatus.failed) = .completed ∨
      (if outcome.isSome then TaskStatus.completed
        else TaskStatus.failed) = .failed := by
    cases outcome <;> simp
  have hsplit : TaskStatus.pending :: TaskStatus.running ::
      List.replicate mid.length TaskStatus.running ++
        [TaskStatus.running,
          if outcome.isSome then TaskStatus.completed else TaskStatus.failed] =
      (TaskStatus.pending :: TaskStatus.running ::
        List.replicate mid.length TaskStatus.running ++
          [TaskStatus.running]) ++
        [if outcome.isSome then TaskStatus.completed
          else TaskStatus.failed] := by
    simp
  refine ⟨?_, ?_, ?_⟩
  · exact List.chain'_cons.mpr
      ⟨Or.inr (Or.inl ⟨rfl, rfl⟩), chain_running_block _ hTor mid.length⟩
  · intro st hst
    rw [hsplit, List.dropLast_concat] at hst
    simp only [List.mem_cons, List.mem_append, List.mem_replicate,
      List.mem_singleton] at hst
    have hor : st = TaskStatus.pending ∨ st = TaskStatus.running := by
      tauto
    rcases hor with h | h <;> subst h <;>
      exact ⟨by decide, by decide, by decide⟩
  · have hlast : (TaskStatus.pending :: TaskStatus.running ::
        List.replicate mid.length TaskStatus.running ++
          [TaskStatus.running,
            if outcome.isSome then TaskStatus.completed
            else TaskStatus.failed]).getLast? =
        some (if outcome.isSome then TaskStatus.completed
          else TaskStatus.failed) := by
      rw [hsplit, List.getLast?_concat]
    rcases hTor with h | h
    · left; rw [hlast, h]
    · right; rw [hlast, h]

/-- Witness for C9 at a concrete run: one navigate action started and
finished, then success — the chain of statuses is legal and the states
before the final one (for example the seeded `pending`) are
non-terminal. -/
theorem C9_session_status_monotonic_witness :
    List.Chain' sessionStepOk
      ((sessionTrajectory "Summarise the homepage"
          [MidOp.actStart ⟨"navigate", 1, none, none⟩,
            MidOp.actFinish ⟨"navigate", 1, some 2, none⟩]
          (some "All done") "unused").map SessionRec.status) ∧
    (TaskStatus.pending ≠ TaskStatus.completed ∧
      TaskStatus.pending ≠ TaskStatus.failed ∧
      TaskStatus.pending ≠ TaskStatus.cancelled) :=
  ⟨(C9_session_status_monotonic "Summarise the homepage"
      [MidOp.actStart ⟨"navigate", 1, none, none⟩,
        MidOp.actFinish ⟨"navigate", 1, some 2, none⟩]
      (some "All done") "unused").1,
    (C9_session_status_monotonic "Summarise the homepage"
      [MidOp.actStart ⟨"navigate", 1, none, none⟩,
        MidOp.actFinish ⟨"navigate", 1, some 2, none⟩]
      (some "All done") "unused").2.1 .pending (by decide)⟩

end Browsearcher
